import Mathlib

/-!
Verification of the weekly duty-rotation bot (`src/main.py`).

The Python source is shallowly embedded below: pure functions become Lean
functions, the in-place mutation of the `state` dictionary becomes explicit
state passing, and the on-disk files (`state.json`, the CSV rosters) become
explicit parameters.  Machine-level details that the claims do not touch
(the LINE client, Flask, the scheduler thread) are out of scope, exactly as
the specification excludes them.
-/

set_option autoImplicit false

/-- The eight role keys of `LIST_CONFIG` in `src/main.py`, in declaration
order: hymn, bread_bro, bread_sis, baking, sharing, pianist, topic, url. -/
inductive RoleKey : Type
  | hymn
  | bread_bro
  | bread_sis
  | baking
  | sharing
  | pianist
  | topic
  | url
  deriving DecidableEq, Repr, Fintype

open RoleKey

/-- The `count` field of `LIST_CONFIG` for each role (`src/main.py`
lines 40-49). -/
def count : RoleKey → Nat
  | .hymn => 2
  | .bread_bro => 2
  | .bread_sis => 2
  | .baking => 1
  | .sharing => 1
  | .pianist => 2
  | .topic => 1
  | .url => 1

/-- Embedding of the CSV roster files: `load_csv_list key` is abstracted as
a function from role keys to the parsed name list (an empty list models a
missing or empty CSV file, exactly the two cases `load_csv_list` collapses). -/
abbrev Rosters := RoleKey → List String

/-- The persisted rotation state: `state["indexes"]` maps each role key to
its cursor, `state["override"]` is the JSON value `None` / `"special"` /
`"normal"` (any other string falls through to the calendar rule just as in
the Python comparisons). -/
structure RotationState : Type where
  indexes : RoleKey → Nat
  override : Option String

attribute [ext] RotationState

/-- `DEFAULT_STATE` (`src/main.py` lines 53-56): all cursors zero,
override `None`. -/
def DEFAULT_STATE : RotationState :=
  { indexes := fun _ => 0, override := none }

/-- The fields of Python's `datetime.now()` that the program reads:
`month`, `day`, and `weekday()` (Monday = 0). -/
structure Date : Type where
  month : Nat
  day : Nat
  weekday : Nat

/-- `next_items(lst, start_idx, n)` (`src/main.py` lines 86-88): the `n`
elements of `lst` starting at `start_idx`, indices taken modulo the length.
Python raises on an empty list; the embedding's `getD` default is never
reached because the only caller guards non-emptiness. -/
def next_items (lst : List String) (start_idx n : Nat) : List String :=
  (List.range n).map fun i => lst.getD ((start_idx + i) % lst.length) ""

/-- `advance_index(current, step, length)` (`src/main.py` lines 90-91). -/
def advance_index (current step length : Nat) : Nat :=
  (current + step) % length

/-- `get_list_with_advance(key, state, advance)` (`src/main.py`
lines 97-106): look up the roster, return `([], state)` when it is empty,
otherwise pick `count` names cyclically from the cursor and, when
`advance` is set, move the cursor by `count` modulo the roster length. -/
def get_list_with_advance (key : RoleKey) (env : Rosters) (state : RotationState)
    (advance : Bool) : List String × RotationState :=
  let names := env key
  if names = [] then
    ([], state)
  else
    let idx := state.indexes key
    let cnt := count key
    let picked := next_items names idx cnt
    if advance then
      (picked,
        { state with
            indexes := Function.update state.indexes key (advance_index idx cnt names.length) })
    else
      (picked, state)

/-- `is_first_monday_odd_month()` (`src/main.py` lines 138-140), with the
ambient `datetime.now()` made an explicit `today` argument. -/
def is_first_monday_odd_month (today : Date) : Bool :=
  today.month % 2 == 1 && (1 ≤ today.day && today.day ≤ 7) && today.weekday == 0

/-- `is_special_week(state)` (`src/main.py` lines 142-147). -/
def is_special_week (state : RotationState) (today : Date) : Bool :=
  if state.override = some "special" then true
  else if state.override = some "normal" then false
  else is_first_monday_odd_month today

/- ### Basic lemmas about the rotator -/

theorem next_items_length (lst : List String) (s n : Nat) :
    (next_items lst s n).length = n := by
  simp [next_items]

theorem next_items_getD (lst : List String) (s n i : Nat) (h : i < n) :
    (next_items lst s n).getD i "" = lst.getD ((s + i) % lst.length) "" := by
  simp [next_items, List.getD_eq_getElem?_getD, List.getElem?_map,
    List.getElem?_range, h]

theorem next_items_mem (lst : List String) (s n : Nat) (hne : lst ≠ [])
    (x : String) (hx : x ∈ next_items lst s n) : x ∈ lst := by
  simp only [next_items, List.mem_map, List.mem_range] at hx
  obtain ⟨i, _, rfl⟩ := hx
  have hlen : 0 < lst.length := List.length_pos.mpr hne
  have hlt : (s + i) % lst.length < lst.length := Nat.mod_lt _ hlen
  rw [List.getD_eq_getElem lst "" hlt]
  exact List.getElem_mem hlt

theorem glwa_fst (key : RoleKey) (env : Rosters) (state : RotationState)
    (advance : Bool) :
    (get_list_with_advance key env state advance).1 =
      if env key = [] then [] else next_items (env key) (state.indexes key) (count key) := by
  unfold get_list_with_advance
  by_cases h : env key = [] <;> by_cases ha : advance = true <;>
    simp [h, ha]

theorem glwa_snd_indexes (key j : RoleKey) (env : Rosters) (state : RotationState)
    (advance : Bool) :
    ((get_list_with_advance key env state advance).2).indexes j =
      if advance = true ∧ env key ≠ [] ∧ j = key then
        advance_index (state.indexes key) (count key) ((env key).length)
      else state.indexes j := by
  unfold get_list_with_advance
  by_cases h : env key = [] <;> by_cases ha : advance = true <;>
    simp [h, ha, Function.update_apply]

theorem glwa_snd_override (key : RoleKey) (env : Rosters) (state : RotationState)
    (advance : Bool) :
    ((get_list_with_advance key env state advance).2).override = state.override := by
  unfold get_list_with_advance
  by_cases h : env key = [] <;> by_cases ha : advance = true <;>
    simp [h, ha]

/- ### The duplicate-avoidance resolver -/

/-- The loop body of `bump_one` (`src/main.py` lines 112-115):
`for step in range(1, len(names_pool))`, starting at the given `step`.
Returns the first pool element, at offset `step` from `cur` modulo the pool
length, that is neither in `avoid_set` nor in `name_list`; `none` when the
scan is exhausted. -/
def bump_scan (names_pool avoid_set name_list : List String) (cur : Nat) :
    Nat → Option String
  | step =>
    if h : step < names_pool.length then
      let candidate := names_pool.getD ((cur + step) % names_pool.length) ""
      if candidate ∉ avoid_set ∧ candidate ∉ name_list then some candidate
      else bump_scan names_pool avoid_set name_list cur (step + 1)
    else none
  termination_by step => names_pool.length - step

/-- `bump_one(name_list, names_pool, avoid_set)` (`src/main.py`
lines 108-116).  Python returns `None` on an empty pool; it raises
(`IndexError` on an empty `name_list`, `ValueError` when `name_list[0]` is
not in the pool) in the remaining `none` cases, which the embedding folds
into the same failure value since no claim distinguishes them. -/
def bump_one (name_list names_pool avoid_set : List String) : Option String :=
  if names_pool = [] then none
  else
    match name_list with
    | [] => none
    | n0 :: _ =>
      if n0 ∈ names_pool then
        let cur := names_pool.indexOf n0
        match bump_scan names_pool avoid_set name_list cur 1 with
        | some c => some c
        | none => some n0
      else none

/-- The loop of `resolve_duplicates` over `bread_bro` (`src/main.py`
lines 120-122): for each index `i` in order, if the name clashes with
`hymn` it is replaced in place by `bump_one([person], pool, set(hymn +
bread_bro))`, the avoid set being built from the current (partially
rewritten) list.  A `bump_one` failure (which in Python would store `None`
in the list and crash later) aborts with `none`. -/
def resolve_bro_loop (hymn pool : List String) : List String → Nat → Option (List String)
  | bb, i =>
    if h : i < bb.length then
      let person := bb.getD i ""
      if person ∈ hymn then
        match bump_one [person] pool (hymn ++ bb) with
        | some c => resolve_bro_loop hymn pool (bb.set i c) (i + 1)
        | none => none
      else resolve_bro_loop hymn pool bb (i + 1)
    else some bb
  termination_by bb i => bb.length - i
  decreasing_by
    · simp only [List.length_set]; omega
    · omega

/-- `resolve_duplicates(hymn, bread_bro, sharing, topic, pianist, state)`
(`src/main.py` lines 118-132).  The three fixed conflict checks in order:
bread-brothers vs hymn, sharing vs topic, pianist self-duplicate.  The
`state` argument is accepted and ignored exactly as in the source.  The
substitution pools are re-loaded from the CSV environment (`load_csv_list`). -/
def resolve_duplicates (env : Rosters) (hymn bread_bro sharing topic pianist : List String)
    (state : RotationState) :
    Option (List String × List String × List String × List String × List String) :=
  let pool_bro := env .bread_bro
  match resolve_bro_loop hymn pool_bro bread_bro 0 with
  | none => none
  | some bread_bro =>
    let pool_sharing := env .sharing
    let sharing_step : Option (List String) :=
      if sharing ≠ [] ∧ topic ≠ [] ∧ sharing.getD 0 "" = topic.getD 0 "" then
        match bump_one sharing pool_sharing topic with
        | some c => some (sharing.set 0 c)
        | none => none
      else some sharing
    match sharing_step with
    | none => none
    | some sharing =>
      let pool_pianist := env .pianist
      let pianist_step : Option (List String) :=
        if pianist.length = 2 ∧ pianist.getD 0 "" = pianist.getD 1 "" then
          match bump_one [pianist.getD 1 ""] pool_pianist (pianist.take 1) with
          | some c => some (pianist.set 1 c)
          | none => none
        else some pianist
      match pianist_step with
      | none => none
      | some pianist => some (hymn, bread_bro, sharing, topic, pianist)

/-- The candidate examined at offset `step` of the bump scan. -/
def bump_cand (names_pool : List String) (cur step : Nat) : String :=
  names_pool.getD ((cur + step) % names_pool.length) ""

/-- Whether a candidate qualifies as a substitute: neither in the avoid
set nor in the current selection. -/
def bump_ok (avoid_set name_list : List String) (c : String) : Prop :=
  c ∉ avoid_set ∧ c ∉ name_list

instance (avoid_set name_list : List String) (c : String) :
    Decidable (bump_ok avoid_set name_list c) := by
  unfold bump_ok; infer_instance

/-- The scan of `bump_one`, started at offset `step`, returns the first
qualifying candidate among offsets `step, step+1, …, len-1`, and `none`
exactly when no offset in that range qualifies. -/
theorem bump_scan_characterize (names_pool avoid_set name_list : List String)
    (cur : Nat) : ∀ step : Nat,
    (∃ j, bump_scan names_pool avoid_set name_list cur step =
        some (bump_cand names_pool cur j) ∧
      step ≤ j ∧ j < names_pool.length ∧
      bump_ok avoid_set name_list (bump_cand names_pool cur j) ∧
      (∀ i, step ≤ i → i < j → ¬ bump_ok avoid_set name_list (bump_cand names_pool cur i))) ∨
    (bump_scan names_pool avoid_set name_list cur step = none ∧
      ∀ j, step ≤ j → j < names_pool.length →
        ¬ bump_ok avoid_set name_list (bump_cand names_pool cur j)) := by
  have main : ∀ n step : Nat, names_pool.length - step ≤ n →
      (∃ j, bump_scan names_pool avoid_set name_list cur step =
          some (bump_cand names_pool cur j) ∧
        step ≤ j ∧ j < names_pool.length ∧
        bump_ok avoid_set name_list (bump_cand names_pool cur j) ∧
        (∀ i, step ≤ i → i < j → ¬ bump_ok avoid_set name_list (bump_cand names_pool cur i))) ∨
      (bump_scan names_pool avoid_set name_list cur step = none ∧
        ∀ j, step ≤ j → j < names_pool.length →
          ¬ bump_ok avoid_set name_list (bump_cand names_pool cur j)) := by
    intro n
    induction n with
    | zero =>
      intro step hle
      have hge : ¬ step < names_pool.length := by omega
      right
      constructor
      · rw [bump_scan]; simp [hge]
      · intro j hj hjl
        omega
    | succ n ihn =>
      intro step hle
      by_cases hs : step < names_pool.length
      · rw [bump_scan]
        simp only [hs, dif_pos]
        by_cases hok : bump_ok avoid_set name_list (bump_cand names_pool cur step)
        · left
          refine ⟨step, ?_, le_refl step, hs, hok, fun i h1 h2 => absurd (lt_of_le_of_lt h1 h2) (lt_irrefl step)⟩
          have hcond : bump_cand names_pool cur step ∉ avoid_set ∧
              bump_cand names_pool cur step ∉ name_list := hok
          simp only [bump_cand] at hcond ⊢
          rw [if_pos hcond]
        · have hcond : ¬ (names_pool.getD ((cur + step) % names_pool.length) "" ∉ avoid_set ∧
              names_pool.getD ((cur + step) % names_pool.length) "" ∉ name_list) := hok
          rw [if_neg hcond]
          rcases ihn (step + 1) (by omega) with ⟨j, heq, hj1, hj2, hok', hmin⟩ | ⟨heq, hall⟩
          · left
            refine ⟨j, heq, by omega, hj2, hok', ?_⟩
            intro i h1 h2
            rcases Nat.eq_or_lt_of_le h1 with rfl | hlt
            · exact hok
            · exact hmin i hlt h2
          · right
            refine ⟨heq, ?_⟩
            intro j hj hjl
            rcases Nat.eq_or_lt_of_le hj with rfl | hlt
            · exact hok
            · exact hall j hlt hjl
      · right
        constructor
        · rw [bump_scan]; simp [hs]
        · intro j hj hjl
          omega
  intro step
  exact main names_pool.length step (by omega)


theorem bump_cand_mem (names_pool : List String) (cur j : Nat)
    (h : names_pool ≠ []) : bump_cand names_pool cur j ∈ names_pool := by
  have hlen : 0 < names_pool.length := List.length_pos.mpr h
  have hlt : (cur + j) % names_pool.length < names_pool.length := Nat.mod_lt _ hlen
  unfold bump_cand
  rw [List.getD_eq_getElem names_pool "" hlt]
  exact List.getElem_mem hlt

/-- In the cases the resolver actually reaches (non-empty pool holding the
conflicting name), `bump_one` always succeeds and returns a pool member. -/
theorem bump_one_some_mem (n0 : String) (rest names_pool avoid_set : List String)
    (hpool : names_pool ≠ []) (hmem : n0 ∈ names_pool) :
    ∃ c, bump_one (n0 :: rest) names_pool avoid_set = some c ∧ c ∈ names_pool := by
  rcases bump_scan_characterize names_pool avoid_set (n0 :: rest) (names_pool.indexOf n0) 1 with
    ⟨j, heq, _, _, _, _⟩ | ⟨heq, _⟩
  · exact ⟨bump_cand names_pool (names_pool.indexOf n0) j,
      by simp [bump_one, hpool, hmem, heq],
      bump_cand_mem names_pool (names_pool.indexOf n0) j hpool⟩
  · exact ⟨n0, by simp [bump_one, hpool, hmem, heq], hmem⟩

theorem resolve_bro_loop_some (hymn pool : List String) :
    ∀ (n : Nat) (bb : List String) (i : Nat), bb.length - i ≤ n →
    (∀ x ∈ bb, x ∈ pool) →
    ∃ bb', resolve_bro_loop hymn pool bb i = some bb' ∧
      (∀ x ∈ bb', x ∈ pool) ∧ bb'.length = bb.length := by
  intro n
  induction n with
  | zero =>
    intro bb i hle hmem
    have hge : ¬ i < bb.length := by omega
    refine ⟨bb, ?_, hmem, rfl⟩
    rw [resolve_bro_loop]
    simp [hge]
  | succ n ihn =>
    intro bb i hle hmem
    by_cases hi : i < bb.length
    · have hperson : bb.getD i "" ∈ bb := by
        rw [List.getD_eq_getElem bb "" hi]
        exact List.getElem_mem hi
      have hpool_mem : bb.getD i "" ∈ pool := hmem _ hperson
      by_cases hh : bb.getD i "" ∈ hymn
      · have hpool_ne : pool ≠ [] := List.ne_nil_of_mem hpool_mem
        obtain ⟨c, hc_eq, hc_mem⟩ :=
          bump_one_some_mem (bb.getD i "") [] pool (hymn ++ bb) hpool_ne hpool_mem
        have hmem' : ∀ x ∈ bb.set i c, x ∈ pool := by
          intro x hx
          rcases List.mem_or_eq_of_mem_set hx with hx' | rfl
          · exact hmem x hx'
          · exact hc_mem
        obtain ⟨bb', hbb'_eq, hbb'_mem, hbb'_len⟩ :=
          ihn (bb.set i c) (i + 1) (by simp [List.length_set]; omega) hmem'
        refine ⟨bb', ?_, hbb'_mem, by rw [hbb'_len, List.length_set]⟩
        rw [resolve_bro_loop]
        simp only [hi, dif_pos, hh, if_pos, hc_eq]
        exact hbb'_eq
      · obtain ⟨bb', hbb'_eq, hbb'_mem, hbb'_len⟩ := ihn bb (i + 1) (by omega) hmem
        refine ⟨bb', ?_, hbb'_mem, hbb'_len⟩
        rw [resolve_bro_loop]
        simp only [hi, dif_pos, hh, if_neg]
        exact hbb'_eq
    · refine ⟨bb, ?_, hmem, rfl⟩
      rw [resolve_bro_loop]
      simp [hi]

/-- The resolver never fails when its selections are drawn from the
rosters it re-loads as substitution pools (which is how `compose_message`
calls it), it never touches `hymn` or `topic`, and a selection it rewrites
keeps its length. -/
theorem resolve_duplicates_some (env : Rosters)
    (hymn bread_bro sharing topic pianist : List String) (state : RotationState)
    (hbb : ∀ x ∈ bread_bro, x ∈ env .bread_bro)
    (hsh : sharing ≠ [] → sharing.getD 0 "" ∈ env .sharing)
    (hpi : pianist.length = 2 → pianist.getD 1 "" ∈ env .pianist) :
    ∃ bb' sh' pi',
      resolve_duplicates env hymn bread_bro sharing topic pianist state =
        some (hymn, bb', sh', topic, pi') ∧
      bb'.length = bread_bro.length ∧
      (sh' = sharing ∨ ∃ c, sh' = sharing.set 0 c) ∧
      pi'.length = pianist.length ∧
      (pianist.length ≠ 2 → pi' = pianist) := by
  obtain ⟨bb', hbb'_eq, _, hbb'_len⟩ :=
    resolve_bro_loop_some hymn (env .bread_bro) bread_bro.length bread_bro 0 (by omega) hbb
  by_cases hshc : sharing ≠ [] ∧ topic ≠ [] ∧ sharing.getD 0 "" = topic.getD 0 ""
  · have hsh_ne : sharing ≠ [] := hshc.1
    have hsh_mem : sharing.getD 0 "" ∈ env .sharing := hsh hsh_ne
    have hsh_pool : env .sharing ≠ [] := List.ne_nil_of_mem hsh_mem
    obtain ⟨s0, srest, rfl⟩ : ∃ s0 srest, sharing = s0 :: srest := by
      cases sharing with
      | nil => exact absurd rfl hsh_ne
      | cons a l => exact ⟨a, l, rfl⟩
    obtain ⟨c, hc_eq, _⟩ :=
      bump_one_some_mem s0 srest (env .sharing) topic hsh_pool (by simpa using hsh_mem)
    by_cases hpic : pianist.length = 2 ∧ pianist.getD 0 "" = pianist.getD 1 ""
    · have hpi_mem : pianist.getD 1 "" ∈ env .pianist := hpi hpic.1
      have hpi_pool : env .pianist ≠ [] := List.ne_nil_of_mem hpi_mem
      obtain ⟨d, hd_eq, _⟩ :=
        bump_one_some_mem (pianist.getD 1 "") [] (env .pianist) (pianist.take 1)
          hpi_pool hpi_mem
      refine ⟨bb', (s0 :: srest).set 0 c, pianist.set 1 d, ?_, hbb'_len,
        Or.inr ⟨c, rfl⟩, List.length_set pianist 1 d, fun h => absurd hpic.1 h⟩
      simp only [resolve_duplicates, hbb'_eq]
      rw [if_pos hshc, hc_eq, if_pos hpic, hd_eq]
    · refine ⟨bb', (s0 :: srest).set 0 c, pianist, ?_, hbb'_len,
        Or.inr ⟨c, rfl⟩, rfl, fun _ => rfl⟩
      simp only [resolve_duplicates, hbb'_eq]
      rw [if_pos hshc, hc_eq, if_neg hpic]
  · by_cases hpic : pianist.length = 2 ∧ pianist.getD 0 "" = pianist.getD 1 ""
    · have hpi_mem : pianist.getD 1 "" ∈ env .pianist := hpi hpic.1
      have hpi_pool : env .pianist ≠ [] := List.ne_nil_of_mem hpi_mem
      obtain ⟨d, hd_eq, _⟩ :=
        bump_one_some_mem (pianist.getD 1 "") [] (env .pianist) (pianist.take 1)
          hpi_pool hpi_mem
      refine ⟨bb', sharing, pianist.set 1 d, ?_, hbb'_len, Or.inl rfl,
        List.length_set pianist 1 d, fun h => absurd hpic.1 h⟩
      simp only [resolve_duplicates, hbb'_eq]
      rw [if_neg hshc, if_pos hpic, hd_eq]
    · refine ⟨bb', sharing, pianist, ?_, hbb'_len, Or.inl rfl, rfl, fun _ => rfl⟩
      simp only [resolve_duplicates, hbb'_eq]
      rw [if_neg hshc, if_neg hpic]

/- ### Message composition -/

/-- `pianist_text` (`src/main.py` line 168): the two-slot pianist value,
rendered only when exactly two names were selected. -/
def pianist_text (pianist : List String) : String :=
  if pianist.length = 2 then
    "（六）" ++ pianist.getD 0 "" ++ "　（日）" ++ pianist.getD 1 ""
  else ""

/-- The message text built by `compose_message` (`src/main.py`
lines 165-178), as a function of the mode and the resolved selections:
the special branch renders only the sharing name and the first pianist
name; the normal branch renders the eight fixed-label lines, multi-name
selections joined with the full-width space. -/
def render_message (special : Bool)
    (hymn bread_bro bread_sis baking sharing pianist topic url : List String) : String :=
  if special then
    "分享：" ++ sharing.headD "" ++ "\n司琴：（六）" ++ pianist.headD ""
  else
    "帶詩歌：" ++ String.intercalate "　" hymn
      ++ "\n餅杯（弟兄）：" ++ String.intercalate "　" bread_bro
      ++ "\n餅杯（姊妹）：" ++ String.intercalate "　" bread_sis
      ++ "\n做餅：" ++ baking.headD ""
      ++ "\n分享：" ++ sharing.headD ""
      ++ "\n司琴：" ++ pianist_text pianist
      ++ "\n專題分享：" ++ topic.headD ""
      ++ "\n題目：" ++ url.headD ""

/-- `compose_message(state, advance)` (`src/main.py` lines 153-179): pick
each role's selection in the declared order, threading the cursor state,
resolve duplicates, then render according to the week mode.  `none` models
the exception Python would raise if a `bump_one` call failed (unreachable,
as proved below). -/
def compose_message (env : Rosters) (today : Date) (state : RotationState)
    (advance : Bool) : Option (String × RotationState) :=
  let r1 := get_list_with_advance .hymn env state advance
  let hymn := r1.1
  let r2 := get_list_with_advance .bread_bro env r1.2 advance
  let bread_bro := r2.1
  let r3 := get_list_with_advance .bread_sis env r2.2 advance
  let bread_sis := r3.1
  let r4 := get_list_with_advance .baking env r3.2 advance
  let baking := r4.1
  let r5 := get_list_with_advance .sharing env r4.2 advance
  let sharing := r5.1
  let r6 := get_list_with_advance .pianist env r5.2 advance
  let pianist := r6.1
  let r7 := get_list_with_advance .topic env r6.2 advance
  let topic := r7.1
  let r8 := get_list_with_advance .url env r7.2 advance
  let url := r8.1
  let state8 := r8.2
  match resolve_duplicates env hymn bread_bro sharing topic pianist state8 with
  | none => none
  | some (hymn, bread_bro, sharing, topic, pianist) =>
    some (render_message (is_special_week state8 today)
      hymn bread_bro bread_sis baking sharing pianist topic url, state8)

/-- The raw selection `compose_message` obtains for a role: empty when the
roster is empty, otherwise the cyclic pick from the role's own (original)
cursor — earlier roles in the sequence only touch their own cursors. -/
def selected (env : Rosters) (state : RotationState) (k : RoleKey) : List String :=
  if env k = [] then [] else next_items (env k) (state.indexes k) (count k)

/-- The state after the eight `get_list_with_advance` calls of
`compose_message`: each non-empty role's cursor advanced by its count
(when `advance` is set), every other field untouched. -/
def advanced_state (env : Rosters) (state : RotationState) (advance : Bool) :
    RotationState :=
  { indexes := fun k =>
      if advance = true ∧ env k ≠ [] then
        advance_index (state.indexes k) (count k) ((env k).length)
      else state.indexes k,
    override := state.override }

/-- Normal form of `compose_message`: the selection phase yields
`selected`/`advanced_state`, and the rendered message uses the resolver's
output. -/
theorem compose_message_eq (env : Rosters) (today : Date) (state : RotationState)
    (adv : Bool) :
    compose_message env today state adv =
      match resolve_duplicates env (selected env state .hymn)
          (selected env state .bread_bro) (selected env state .sharing)
          (selected env state .topic) (selected env state .pianist)
          (advanced_state env state adv) with
      | none => none
      | some (hy, bb, sh, tp, pi) =>
        some (render_message (is_special_week (advanced_state env state adv) today)
          hy bb (selected env state .bread_sis) (selected env state .baking)
          sh pi tp (selected env state .url),
          advanced_state env state adv) := by
  have hS8 :
      (get_list_with_advance .url env
        (get_list_with_advance .topic env
          (get_list_with_advance .pianist env
            (get_list_with_advance .sharing env
              (get_list_with_advance .baking env
                (get_list_with_advance .bread_sis env
                  (get_list_with_advance .bread_bro env
                    (get_list_with_advance .hymn env state adv).2
                    adv).2 adv).2 adv).2 adv).2 adv).2 adv).2 adv).2 =
      advanced_state env state adv := by
    ext k
    · cases k <;> simp [glwa_snd_indexes, advanced_state, advance_index]
    · simp [glwa_snd_override, advanced_state]
  simp only [compose_message]
  rw [hS8]
  simp [glwa_fst, glwa_snd_indexes, selected]

/- ### Claim C1: the rotator -/

/-- C1: for every non-empty roster, every cursor and the role's configured
count `n`, the advancing rotator returns exactly `n` names, each a roster
member, picked cyclically starting at the cursor, and sets the new cursor
to `(cursor + n) mod L`. -/
theorem rotator_select_correct (env : Rosters) (state : RotationState) (key : RoleKey)
    (h : env key ≠ []) :
    ((get_list_with_advance key env state true).1).length = count key ∧
    (∀ x ∈ (get_list_with_advance key env state true).1, x ∈ env key) ∧
    (∀ i, i < count key →
      ((get_list_with_advance key env state true).1).getD i "" =
        (env key).getD ((state.indexes key + i) % (env key).length) "") ∧
    ((get_list_with_advance key env state true).2).indexes key =
      (state.indexes key + count key) % (env key).length := by
  refine ⟨?_, ?_, ?_, ?_⟩
  · rw [glwa_fst, if_neg h, next_items_length]
  · intro x hx
    rw [glwa_fst, if_neg h] at hx
    exact next_items_mem _ _ _ h x hx
  · intro i hi
    rw [glwa_fst, if_neg h, next_items_getD _ _ _ _ hi]
  · rw [glwa_snd_indexes]
    simp [h, advance_index]

theorem rotator_select_correct_witness :
    (fun _ => ["Alice", "Bob", "Carol"] : Rosters) RoleKey.hymn ≠ [] ∧
    (((get_list_with_advance RoleKey.hymn (fun _ => ["Alice", "Bob", "Carol"])
        DEFAULT_STATE true).1).length = count RoleKey.hymn ∧
    (∀ x ∈ (get_list_with_advance RoleKey.hymn (fun _ => ["Alice", "Bob", "Carol"])
        DEFAULT_STATE true).1, x ∈ (fun _ => ["Alice", "Bob", "Carol"] : Rosters) RoleKey.hymn) ∧
    (∀ i, i < count RoleKey.hymn →
      ((get_list_with_advance RoleKey.hymn (fun _ => ["Alice", "Bob", "Carol"])
          DEFAULT_STATE true).1).getD i "" =
        ((fun _ => ["Alice", "Bob", "Carol"] : Rosters) RoleKey.hymn).getD
          ((DEFAULT_STATE.indexes RoleKey.hymn + i) %
            ((fun _ => ["Alice", "Bob", "Carol"] : Rosters) RoleKey.hymn).length) "") ∧
    ((get_list_with_advance RoleKey.hymn (fun _ => ["Alice", "Bob", "Carol"])
        DEFAULT_STATE true).2).indexes RoleKey.hymn =
      (DEFAULT_STATE.indexes RoleKey.hymn + count RoleKey.hymn) %
        ((fun _ => ["Alice", "Bob", "Carol"] : Rosters) RoleKey.hymn).length) :=
  ⟨by decide,
    rotator_select_correct (fun _ => ["Alice", "Bob", "Carol"]) DEFAULT_STATE
      RoleKey.hymn (by decide)⟩

/- ### Claim C2: rotation fairness -/

/-- One advancing rotation call on a single role, viewed as a state
transformer (the state component of `get_list_with_advance` with
`advance=True`). -/
def advance_cycle (key : RoleKey) (env : Rosters) (state : RotationState) :
    RotationState :=
  (get_list_with_advance key env state true).2

theorem count_pos (key : RoleKey) : 0 < count key := by
  cases key <;> simp [count]

/-- C2 counterexample: on the hymn role (count 2) with a roster of length
3 and cursor 0, `ceil(3/2) = 2` successive advancing calls leave the
cursor at 1, not back at 0. -/
theorem rotation_fairness_ceil_counterexample :
    ¬ (((advance_cycle RoleKey.hymn (fun _ => ["Alice", "Bob", "Carol"]))^[(3 + 2 - 1) / 2]
        DEFAULT_STATE).indexes RoleKey.hymn = DEFAULT_STATE.indexes RoleKey.hymn) := by
  decide

theorem advance_cycle_iterate (key : RoleKey) (env : Rosters) (h : env key ≠ []) :
    ∀ (m : Nat) (state : RotationState),
    (((advance_cycle key env)^[m + 1]) state).indexes key =
      (state.indexes key + (m + 1) * count key) % ((env key).length) := by
  intro m
  induction m with
  | zero =>
    intro state
    simp [advance_cycle, glwa_snd_indexes, h, advance_index]
  | succ n ihn =>
    intro state
    rw [Function.iterate_succ_apply, ihn]
    have h1 : (advance_cycle key env state).indexes key =
        (state.indexes key + count key) % ((env key).length) := by
      simp [advance_cycle, glwa_snd_indexes, h, advance_index]
    rw [h1, Nat.mod_add_mod]
    ring_nf

/-- C2, amended: the cursor (kept below the roster length, its invariant)
returns to its starting value after `L / gcd(L, n)` successive advancing
calls, a number of calls that equals the claimed `ceil(L/n)` whenever `n`
divides `L`. -/
theorem rotation_fairness_gcd (env : Rosters) (key : RoleKey) (state : RotationState)
    (h : env key ≠ []) (hc : state.indexes key < (env key).length) :
    (((advance_cycle key env)^[(env key).length /
        Nat.gcd ((env key).length) (count key)]) state).indexes key =
      state.indexes key ∧
    (count key ∣ (env key).length →
      (env key).length / Nat.gcd ((env key).length) (count key) =
        ((env key).length + count key - 1) / count key) := by
  have hL : 0 < (env key).length := List.length_pos.mpr h
  have hn : 0 < count key := count_pos key
  have hg : 0 < Nat.gcd ((env key).length) (count key) :=
    Nat.gcd_pos_of_pos_left _ hL
  constructor
  · have hdvdL : Nat.gcd ((env key).length) (count key) ∣ (env key).length :=
      Nat.gcd_dvd_left _ _
    have hdvdn : Nat.gcd ((env key).length) (count key) ∣ count key :=
      Nat.gcd_dvd_right _ _
    have hm_pos : 0 < (env key).length / Nat.gcd ((env key).length) (count key) :=
      Nat.div_pos (Nat.le_of_dvd hL hdvdL) hg
    obtain ⟨m', hm'⟩ : ∃ m', (env key).length / Nat.gcd ((env key).length) (count key) =
        m' + 1 :=
      ⟨(env key).length / Nat.gcd ((env key).length) (count key) - 1, by omega⟩
    rw [hm', advance_cycle_iterate key env h m' state, ← hm']
    have hmul : ∀ (L n g : Nat), 0 < g → g ∣ L → g ∣ n → L / g * n = L * (n / g) := by
      rintro L n g hg0 ⟨a, rfl⟩ ⟨b, rfl⟩
      rw [Nat.mul_div_cancel_left a hg0, Nat.mul_div_cancel_left b hg0]
      ring
    rw [hmul _ _ _ hg hdvdL hdvdn, Nat.add_mul_mod_self_left, Nat.mod_eq_of_lt hc]
  · intro hd
    have hgcd : Nat.gcd ((env key).length) (count key) = count key := Nat.gcd_eq_right hd
    obtain ⟨q, hq⟩ := hd
    rw [hgcd, hq, Nat.mul_div_cancel_left q hn,
      Nat.add_sub_assoc hn (count key * q), Nat.mul_add_div hn,
      Nat.div_eq_of_lt (by omega), Nat.add_zero]

theorem rotation_fairness_gcd_witness :
    (fun _ => ["Alice", "Bob", "Carol"] : Rosters) RoleKey.baking ≠ [] ∧
    DEFAULT_STATE.indexes RoleKey.baking <
      ((fun _ => ["Alice", "Bob", "Carol"] : Rosters) RoleKey.baking).length ∧
    ((((advance_cycle RoleKey.baking (fun _ => ["Alice", "Bob", "Carol"]))^[
        ((fun _ => ["Alice", "Bob", "Carol"] : Rosters) RoleKey.baking).length /
          Nat.gcd (((fun _ => ["Alice", "Bob", "Carol"] : Rosters) RoleKey.baking).length)
            (count RoleKey.baking)]) DEFAULT_STATE).indexes RoleKey.baking =
      DEFAULT_STATE.indexes RoleKey.baking ∧
    (count RoleKey.baking ∣ ((fun _ => ["Alice", "Bob", "Carol"] : Rosters) RoleKey.baking).length →
      ((fun _ => ["Alice", "Bob", "Carol"] : Rosters) RoleKey.baking).length /
          Nat.gcd (((fun _ => ["Alice", "Bob", "Carol"] : Rosters) RoleKey.baking).length)
            (count RoleKey.baking) =
        (((fun _ => ["Alice", "Bob", "Carol"] : Rosters) RoleKey.baking).length +
            count RoleKey.baking - 1) / count RoleKey.baking)) :=
  ⟨by decide, by decide,
    rotation_fairness_gcd (fun _ => ["Alice", "Bob", "Carol"]) RoleKey.baking
      DEFAULT_STATE (by decide) (by decide)⟩

/- ### Claim C3: the bump substitution scan -/

/-- C3: for a non-empty pool containing the conflicting name, `bump_one`
scans the pool starting immediately after that name's position, in pool
order, wrapping once, and returns the first candidate neither in the
avoid-set nor in the current selection; when no candidate qualifies after
the full wrap it returns the original name unchanged. -/
theorem bump_one_scan_correct (n0 : String) (rest names_pool avoid_set : List String)
    (hpool : names_pool ≠ []) (hmem : n0 ∈ names_pool) :
    (∃ j, 1 ≤ j ∧ j < names_pool.length ∧
      bump_one (n0 :: rest) names_pool avoid_set =
        some (bump_cand names_pool (names_pool.indexOf n0) j) ∧
      bump_ok avoid_set (n0 :: rest) (bump_cand names_pool (names_pool.indexOf n0) j) ∧
      (∀ i, 1 ≤ i → i < j →
        ¬ bump_ok avoid_set (n0 :: rest) (bump_cand names_pool (names_pool.indexOf n0) i))) ∨
    (bump_one (n0 :: rest) names_pool avoid_set = some n0 ∧
      ∀ j, 1 ≤ j → j < names_pool.length →
        ¬ bump_ok avoid_set (n0 :: rest) (bump_cand names_pool (names_pool.indexOf n0) j)) := by
  rcases bump_scan_characterize names_pool avoid_set (n0 :: rest) (names_pool.indexOf n0) 1 with
    ⟨j, heq, hj1, hj2, hok, hmin⟩ | ⟨heq, hall⟩
  · exact Or.inl ⟨j, hj1, hj2, by simp [bump_one, hpool, hmem, heq], hok, hmin⟩
  · exact Or.inr ⟨by simp [bump_one, hpool, hmem, heq], hall⟩

theorem bump_one_scan_correct_witness :
    (["Alice", "Bob", "Carol"] : List String) ≠ [] ∧
    "Alice" ∈ (["Alice", "Bob", "Carol"] : List String) ∧
    ((∃ j, 1 ≤ j ∧ j < (["Alice", "Bob", "Carol"] : List String).length ∧
      bump_one ["Alice"] ["Alice", "Bob", "Carol"] ["Bob"] =
        some (bump_cand ["Alice", "Bob", "Carol"]
          ((["Alice", "Bob", "Carol"] : List String).indexOf "Alice") j) ∧
      bump_ok ["Bob"] ["Alice"] (bump_cand ["Alice", "Bob", "Carol"]
        ((["Alice", "Bob", "Carol"] : List String).indexOf "Alice") j) ∧
      (∀ i, 1 ≤ i → i < j →
        ¬ bump_ok ["Bob"] ["Alice"] (bump_cand ["Alice", "Bob", "Carol"]
          ((["Alice", "Bob", "Carol"] : List String).indexOf "Alice") i))) ∨
    (bump_one ["Alice"] ["Alice", "Bob", "Carol"] ["Bob"] = some "Alice" ∧
      ∀ j, 1 ≤ j → j < (["Alice", "Bob", "Carol"] : List String).length →
        ¬ bump_ok ["Bob"] ["Alice"] (bump_cand ["Alice", "Bob", "Carol"]
          ((["Alice", "Bob", "Carol"] : List String).indexOf "Alice") j))) :=
  ⟨by decide, by decide,
    bump_one_scan_correct "Alice" [] ["Alice", "Bob", "Carol"] ["Bob"]
      (by decide) (by decide)⟩

/- ### Claim C4: the week-mode decision -/

/-- C4: the week-mode decision is `true` under a `special` override,
`false` under a `normal` override, and otherwise holds exactly when
today's month number is odd, its day-of-month is in `[1, 7]`, and today
is a Monday. -/
theorem week_mode_decision_correct (state : RotationState) (today : Date) :
    (state.override = some "special" → is_special_week state today = true) ∧
    (state.override = some "normal" → is_special_week state today = false) ∧
    (state.override ≠ some "special" → state.override ≠ some "normal" →
      (is_special_week state today = true ↔
        (today.month % 2 = 1 ∧ 1 ≤ today.day ∧ today.day ≤ 7 ∧ today.weekday = 0))) := by
  refine ⟨?_, ?_, ?_⟩
  · intro h
    simp [is_special_week, h]
  · intro h
    simp [is_special_week, h]
  · intro h1 h2
    simp only [is_special_week, if_neg h1, if_neg h2, is_first_monday_odd_month,
      Bool.and_eq_true, beq_iff_eq, decide_eq_true_eq]
    tauto

theorem week_mode_decision_correct_witness :
    ({ indexes := fun _ => 0, override := some "special" } : RotationState).override =
      some "special" ∧
    is_special_week { indexes := fun _ => 0, override := some "special" } ⟨3, 4, 0⟩ = true ∧
    (is_special_week DEFAULT_STATE ⟨3, 4, 0⟩ = true ↔
      (3 % 2 = 1 ∧ 1 ≤ 4 ∧ 4 ≤ 7 ∧ 0 = 0)) :=
  ⟨rfl,
    (week_mode_decision_correct { indexes := fun _ => 0, override := some "special" }
      ⟨3, 4, 0⟩).1 rfl,
    (week_mode_decision_correct DEFAULT_STATE ⟨3, 4, 0⟩).2.2 (by decide) (by decide)⟩

/- ### Claim C5: the rendering rules -/

/-- The fixed label text of each role's message line, in the order the
lines appear in the normal-mode message. -/
def role_label : RoleKey → String
  | .hymn => "帶詩歌："
  | .bread_bro => "餅杯（弟兄）："
  | .bread_sis => "餅杯（姊妹）："
  | .baking => "做餅："
  | .sharing => "分享："
  | .pianist => "司琴："
  | .topic => "專題分享："
  | .url => "題目："

/-- The position of each role's line in the normal-mode message. -/
def line_pos : RoleKey → Nat
  | .hymn => 0
  | .bread_bro => 1
  | .bread_sis => 2
  | .baking => 3
  | .sharing => 4
  | .pianist => 5
  | .topic => 6
  | .url => 7

/-- Spec-side description of the two-slot pianist value: rendered as
Saturday/Sunday slots only when exactly two names were selected,
otherwise empty. -/
def spec_pianist_value (pianist : List String) : String :=
  if pianist.length = 2 then
    "（六）" ++ pianist.headD "" ++ "　（日）" ++ pianist.getD 1 ""
  else ""

/-- Spec-side description of the normal-mode message: one labelled line
per role, multi-name selections joined with the full-width space, empty
selections rendered as an empty value after the label. -/
def normal_lines (sels : RoleKey → List String) : List String :=
  [role_label .hymn ++ String.intercalate "　" (sels .hymn),
   role_label .bread_bro ++ String.intercalate "　" (sels .bread_bro),
   role_label .bread_sis ++ String.intercalate "　" (sels .bread_sis),
   role_label .baking ++ (sels .baking).headD "",
   role_label .sharing ++ (sels .sharing).headD "",
   role_label .pianist ++ spec_pianist_value (sels .pianist),
   role_label .topic ++ (sels .topic).headD "",
   role_label .url ++ (sels .url).headD ""]

/-- Spec-side joining of message lines with single newlines. -/
def join_lines : List String → String
  | [] => ""
  | [l] => l
  | l :: ls => l ++ "\n" ++ join_lines ls

theorem headD_eq_getD (l : List String) (d : String) : l.headD d = l.getD 0 d := by
  cases l <;> rfl

theorem spec_pianist_value_eq (pianist : List String) :
    spec_pianist_value pianist = pianist_text pianist := by
  simp [spec_pianist_value, pianist_text, headD_eq_getD, List.head?_eq_getElem?]

theorem intercalate_nil_str : String.intercalate "　" [] = "" := rfl

/-- Core rendering facts shared by the rendering and degradation
claims. -/
theorem render_rules_core (sels : RoleKey → List String) :
    (render_message true (sels .hymn) (sels .bread_bro) (sels .bread_sis)
        (sels .baking) (sels .sharing) (sels .pianist) (sels .topic) (sels .url) =
      role_label .sharing ++ (sels .sharing).headD "" ++ "\n" ++
        role_label .pianist ++ "（六）" ++ (sels .pianist).headD "") ∧
    (render_message false (sels .hymn) (sels .bread_bro) (sels .bread_sis)
        (sels .baking) (sels .sharing) (sels .pianist) (sels .topic) (sels .url) =
      join_lines (normal_lines sels)) ∧
    (normal_lines sels).length = 8 ∧
    ((sels .pianist).length ≠ 2 → spec_pianist_value (sels .pianist) = "") ∧
    (∀ k, sels k = [] → (normal_lines sels).getD (line_pos k) "" = role_label k) := by
  refine ⟨?_, ?_, ?_, ?_, ?_⟩
  · simp only [render_message, if_pos]
    apply String.ext
    simp [role_label, String.data_append, List.append_assoc]
  · simp only [render_message, if_neg, Bool.false_eq_true, not_false_iff,
      join_lines, normal_lines, role_label, spec_pianist_value_eq]
    apply String.ext
    simp [String.data_append, List.append_assoc]
  · simp [normal_lines]
  · intro h
    simp [spec_pianist_value, h]
  · intro k hk
    cases k <;>
      simp [normal_lines, line_pos, hk, role_label, spec_pianist_value,
        intercalate_nil_str]

/-- C5: the special-mode message renders only the sharing name and the
first pianist name; the normal-mode message is exactly the eight labelled
lines joined by newlines, with full-width-space joins, a two-slot
pianist value rendered only for exactly two selected names, and empty
selections keeping their line label with an empty value. -/
theorem compose_render_rules (sels : RoleKey → List String) :
    (render_message true (sels .hymn) (sels .bread_bro) (sels .bread_sis)
        (sels .baking) (sels .sharing) (sels .pianist) (sels .topic) (sels .url) =
      role_label .sharing ++ (sels .sharing).headD "" ++ "\n" ++
        role_label .pianist ++ "（六）" ++ (sels .pianist).headD "") ∧
    (render_message false (sels .hymn) (sels .bread_bro) (sels .bread_sis)
        (sels .baking) (sels .sharing) (sels .pianist) (sels .topic) (sels .url) =
      join_lines (normal_lines sels)) ∧
    (normal_lines sels).length = 8 ∧
    ((sels .pianist).length ≠ 2 → spec_pianist_value (sels .pianist) = "") ∧
    (∀ k, sels k = [] → (normal_lines sels).getD (line_pos k) "" = role_label k) :=
  render_rules_core sels

theorem compose_render_rules_witness :
    ((fun _ => ([] : List String)) RoleKey.pianist).length ≠ 2 ∧
    spec_pianist_value ((fun _ => ([] : List String)) RoleKey.pianist) = "" ∧
    (fun _ => ([] : List String)) RoleKey.baking = [] ∧
    (normal_lines (fun _ => [])).getD (line_pos RoleKey.baking) "" =
      role_label RoleKey.baking :=
  ⟨by decide, (compose_render_rules (fun _ => [])).2.2.2.1 (by decide),
    rfl, (compose_render_rules (fun _ => [])).2.2.2.2 RoleKey.baking rfl⟩

/- ### Composition never fails, and its state is the pure advance -/

theorem selected_mem (env : Rosters) (state : RotationState) (k : RoleKey) :
    ∀ x ∈ selected env state k, x ∈ env k := by
  intro x hx
  unfold selected at hx
  by_cases h : env k = []
  · rw [if_pos h] at hx
    exact absurd hx (List.not_mem_nil x)
  · rw [if_neg h] at hx
    exact next_items_mem _ _ _ h x hx

theorem selected_getD_mem (env : Rosters) (state : RotationState) (k : RoleKey)
    (i : Nat) (hne : selected env state k ≠ []) (hi : i < count k) :
    (selected env state k).getD i "" ∈ env k := by
  have henv : env k ≠ [] := by
    intro h
    apply hne
    simp [selected, h]
  have hlen : (selected env state k).length = count k := by
    simp [selected, henv, next_items_length]
  have hlt : i < (selected env state k).length := by omega
  rw [List.getD_eq_getElem _ "" hlt]
  exact selected_mem env state k _ (List.getElem_mem hlt)

/-- `compose_message` always succeeds (no `bump_one` call it triggers can
fail, because every selection is drawn from the roster that is later used
as that selection's substitution pool), and the state it returns is the
pure cursor advance of the selection phase. -/
theorem compose_message_some (env : Rosters) (today : Date) (state : RotationState)
    (adv : Bool) :
    ∃ msg, compose_message env today state adv =
      some (msg, advanced_state env state adv) := by
  have hsh : selected env state .sharing ≠ [] →
      (selected env state .sharing).getD 0 "" ∈ env .sharing := by
    intro hne
    exact selected_getD_mem env state .sharing 0 hne (by simp [count])
  have hpi : (selected env state .pianist).length = 2 →
      (selected env state .pianist).getD 1 "" ∈ env .pianist := by
    intro hlen
    have hne : selected env state .pianist ≠ [] := by
      intro h
      rw [h] at hlen
      simp at hlen
    exact selected_getD_mem env state .pianist 1 hne (by simp [count])
  obtain ⟨bb', sh', pi', hres, _, _, _, _⟩ :=
    resolve_duplicates_some env (selected env state .hymn) (selected env state .bread_bro)
      (selected env state .sharing) (selected env state .topic) (selected env state .pianist)
      (advanced_state env state adv) (selected_mem env state .bread_bro) hsh hpi
  rw [compose_message_eq, hres]
  exact ⟨_, rfl⟩

/- ### Claim C8: substitutions never move cursors -/

/-- C8: conflict resolution is a pure rewrite of the printed selections:
`resolve_duplicates` ignores the rotation state entirely, and the state
returned by `compose_message` is exactly the pure cursor advance of the
selection phase — no substitution affects any cursor. -/
theorem resolve_frame_cursors (env : Rosters) (today : Date) (state : RotationState)
    (adv : Bool) :
    (∀ (s₁ s₂ : RotationState) (hy bb sh tp pi : List String),
      resolve_duplicates env hy bb sh tp pi s₁ =
        resolve_duplicates env hy bb sh tp pi s₂) ∧
    (∃ msg st, compose_message env today state adv = some (msg, st) ∧
      (∀ k, st.indexes k =
        if adv = true ∧ env k ≠ [] then
          advance_index (state.indexes k) (count k) ((env k).length)
        else state.indexes k) ∧
      st.override = state.override) := by
  constructor
  · intro s₁ s₂ hy bb sh tp pi
    rfl
  · obtain ⟨msg, hmsg⟩ := compose_message_some env today state adv
    exact ⟨msg, advanced_state env state adv, hmsg, fun k => rfl, rfl⟩

/- ### Claim C10: every cursor advances, special weeks included -/

/-- C10: when all eight rosters are non-empty, an advancing compose moves
every role's cursor by its count (mod its roster length) — for every date,
special weeks included, even though the special rendering shows only the
sharing and pianist names. -/
theorem compose_advances_all_roles (env : Rosters) (today : Date)
    (state : RotationState) (h : ∀ k, env k ≠ []) :
    ∃ msg st, compose_message env today state true = some (msg, st) ∧
      ∀ k, st.indexes k = (state.indexes k + count k) % ((env k).length) := by
  obtain ⟨msg, hmsg⟩ := compose_message_some env today state true
  refine ⟨msg, advanced_state env state true, hmsg, ?_⟩
  intro k
  simp [advanced_state, h k, advance_index]

theorem compose_advances_all_roles_witness :
    (∀ k, (fun _ => ["Alice", "Bob"] : Rosters) k ≠ []) ∧
    (∃ msg st,
      compose_message (fun _ => ["Alice", "Bob"]) ⟨1, 1, 0⟩ DEFAULT_STATE true =
        some (msg, st) ∧
      ∀ k, st.indexes k = (DEFAULT_STATE.indexes k + count k) %
        (((fun _ => ["Alice", "Bob"] : Rosters) k).length)) :=
  ⟨by decide,
    compose_advances_all_roles (fun _ => ["Alice", "Bob"]) ⟨1, 1, 0⟩
      DEFAULT_STATE (by decide)⟩

/- ### Claim C6: empty rosters degrade gracefully -/

/-- C6: a role with a missing or empty roster never makes composition
fail: its selection is empty, its cursor is left untouched, and in normal
mode its line still appears, label present, value empty. -/
theorem compose_empty_roster_degrades (env : Rosters) (today : Date)
    (state : RotationState) (k : RoleKey) (hk : env k = []) :
    ∃ msg st, compose_message env today state true = some (msg, st) ∧
      st.indexes k = state.indexes k ∧
      (is_special_week state today = false →
        ∃ lines, msg = join_lines lines ∧ lines.length = 8 ∧
          lines.getD (line_pos k) "" = role_label k) := by
  have hsh : selected env state .sharing ≠ [] →
      (selected env state .sharing).getD 0 "" ∈ env .sharing := fun hne =>
    selected_getD_mem env state .sharing 0 hne (by simp [count])
  have hpi : (selected env state .pianist).length = 2 →
      (selected env state .pianist).getD 1 "" ∈ env .pianist := by
    intro hlen
    have hne : selected env state .pianist ≠ [] := by
      intro h
      rw [h] at hlen
      simp at hlen
    exact selected_getD_mem env state .pianist 1 hne (by simp [count])
  obtain ⟨bb', sh', pi', hres, hbb_len, hsh_shape, hpi_len, hpi_id⟩ :=
    resolve_duplicates_some env (selected env state .hymn) (selected env state .bread_bro)
      (selected env state .sharing) (selected env state .topic)
      (selected env state .pianist) (advanced_state env state true)
      (selected_mem env state .bread_bro) hsh hpi
  rw [compose_message_eq, hres]
  refine ⟨_, _, rfl, ?_, ?_⟩
  · simp [advanced_state, hk]
  · intro hnorm
    have hspec : is_special_week (advanced_state env state true) today =
        is_special_week state today := rfl
    set selsR : RoleKey → List String := fun j =>
      match j with
      | .hymn => selected env state .hymn
      | .bread_bro => bb'
      | .bread_sis => selected env state .bread_sis
      | .baking => selected env state .baking
      | .sharing => sh'
      | .pianist => pi'
      | .topic => selected env state .topic
      | .url => selected env state .url
      with hsels
    have hsel_empty : selsR k = [] := by
      have hself : selected env state k = [] := by simp [selected, hk]
      cases k
      · exact hself
      · have : (selected env state .bread_bro).length = 0 := by rw [hself]; rfl
        exact List.eq_nil_of_length_eq_zero (by rw [hsels]; simpa [this] using hbb_len)
      · exact hself
      · exact hself
      · rcases hsh_shape with h' | ⟨c, h'⟩
        · rw [hsels]; simpa [h'] using hself
        · rw [hsels]; simp only [h', hself]; rfl
      · have h2 : (selected env state .pianist).length ≠ 2 := by rw [hself]; simp
        rw [hsels]; simpa [hpi_id h2] using hself
      · exact hself
      · exact hself
    refine ⟨normal_lines selsR, ?_, (render_rules_core selsR).2.2.1,
      (render_rules_core selsR).2.2.2.2 k hsel_empty⟩
    rw [hspec, hnorm]
    exact (render_rules_core selsR).2.1

theorem compose_empty_roster_degrades_witness :
    (fun _ => ([] : List String)) RoleKey.baking = [] ∧
    (∃ msg st,
      compose_message (fun _ => []) ⟨2, 1, 0⟩ DEFAULT_STATE true = some (msg, st) ∧
      st.indexes RoleKey.baking = DEFAULT_STATE.indexes RoleKey.baking ∧
      (is_special_week DEFAULT_STATE ⟨2, 1, 0⟩ = false →
        ∃ lines, msg = join_lines lines ∧ lines.length = 8 ∧
          lines.getD (line_pos RoleKey.baking) "" = role_label RoleKey.baking)) :=
  ⟨rfl,
    compose_empty_roster_degrades (fun _ => []) ⟨2, 1, 0⟩ DEFAULT_STATE
      RoleKey.baking rfl⟩

/- ### Persistence (claim C7) and the status handler (claim C9) -/

/-- The content of the persisted `state.json` file as `json.loads` sees
it: either text that parses back to a rotation state (the
`save_state`/`json.loads` round-trip is modelled as the identity), or
text on which `json.loads` raises. -/
inductive StateFileContent : Type
  | valid (s : RotationState)
  | corrupt

/-- The slice of the filesystem the state helpers touch: `state.json`,
`none` when the file does not exist. -/
structure FS : Type where
  state_file : Option StateFileContent

/-- `save_state(state)` (`src/main.py` lines 75-76). -/
def save_state (fs : FS) (state : RotationState) : FS :=
  { fs with state_file := some (.valid state) }

/-- `load_state()` (`src/main.py` lines 70-73): when the file is missing,
write the default state first; then read and parse whatever the file now
holds.  A file that exists but does not parse makes `json.loads` raise,
modelled as `Except.error`. -/
def load_state (fs : FS) : Except Unit (RotationState × FS) :=
  match fs.state_file with
  | none =>
    let fs' := save_state fs DEFAULT_STATE
    Except.ok (DEFAULT_STATE, fs')
  | some (.valid s) => Except.ok (s, fs)
  | some .corrupt => Except.error ()

/-- C7 counterexample: a state file that exists but is corrupt makes
`load_state` raise the parse error — it is not treated as absent and does
not yield the default state. -/
theorem load_state_corrupt_counterexample :
    load_state { state_file := some StateFileContent.corrupt } = Except.error () :=
  rfl

/-- C7 amended: a missing state file yields (and persists) the default
state — all cursors zero, override unset — and a valid file yields its
parsed contents unchanged; but a corrupt or unreadable state file makes
`load_state` propagate the parse error instead of resetting to the
default. -/
theorem load_state_behavior :
    load_state { state_file := none } =
      Except.ok (DEFAULT_STATE,
        { state_file := some (StateFileContent.valid DEFAULT_STATE) }) ∧
    (∀ s : RotationState, load_state { state_file := some (.valid s) } =
      Except.ok (s, { state_file := some (.valid s) })) ∧
    load_state { state_file := some StateFileContent.corrupt } = Except.error () :=
  ⟨rfl, fun _ => rfl, rfl⟩

/-- The `!status` branch of `handle_message` (`src/main.py`
lines 236-238): load the state, compute the mode, reply with the mode
text.  The current date consumed by `is_special_week` is the explicit
`today`. -/
def handle_status (fs : FS) (today : Date) : Except Unit (String × FS) :=
  match load_state fs with
  | Except.error e => Except.error e
  | Except.ok (state, fs') =>
    let mode := if is_special_week state today then "Special" else "Normal"
    Except.ok ("Current mode: " ++ mode, fs')

/-- C9: the read-only mode query is idempotent — a second `!status` call
on the filesystem the first call left behind, with no intervening cycle
and the same current date, returns the same reply (and leaves the
filesystem unchanged). -/
theorem status_query_idempotent (fs : FS) (today : Date) (reply : String) (fs₁ : FS)
    (h : handle_status fs today = Except.ok (reply, fs₁)) :
    handle_status fs₁ today = Except.ok (reply, fs₁) := by
  obtain ⟨sf⟩ := fs
  cases sf with
  | none =>
    simp only [handle_status, load_state, save_state] at h
    obtain ⟨h1, h2⟩ := Prod.mk.injEq .. ▸ Except.ok.inj h
    rw [← h2, ← h1]
    rfl
  | some c =>
    cases c with
    | valid s =>
      simp only [handle_status, load_state] at h
      obtain ⟨h1, h2⟩ := Prod.mk.injEq .. ▸ Except.ok.inj h
      rw [← h2, ← h1]
      rfl
    | corrupt =>
      simp [handle_status, load_state] at h

theorem status_query_idempotent_witness :
    handle_status { state_file := none } ⟨1, 1, 0⟩ =
      Except.ok ("Current mode: Special",
        { state_file := some (StateFileContent.valid DEFAULT_STATE) }) ∧
    handle_status { state_file := some (StateFileContent.valid DEFAULT_STATE) } ⟨1, 1, 0⟩ =
      Except.ok ("Current mode: Special",
        { state_file := some (StateFileContent.valid DEFAULT_STATE) }) :=
  ⟨rfl, status_query_idempotent { state_file := none } ⟨1, 1, 0⟩ _ _ rfl⟩
